import Mathlib

/-!
Verification development for the Dreamy Garden snake engine (src/game.js).

The simulation state, the tick algorithm, food placement, the keyboard
handler and the particle pool are shallowly embedded as executable Lean
definitions, translated line by line from the source.  Grid coordinates
are JS numbers holding small integers, embedded as `Int`; particle
coordinates are JS floating point values, embedded as exact rationals
(the operations involved are addition, subtraction and comparison, which
agree with float semantics on the small dyadic values used in the
concrete evaluations below).  Randomness (`Math.random` based `rndInt`)
is embedded as an oracle stream of candidate values, constrained to the
range `rndInt` can produce.  DOM, canvas and localStorage writes are
external effects: the persisted best score is tracked as a ghost value
alongside the reachability relation.
-/

-- ─── Constants (game.js lines 19-23) ───

/-- GRID = 20, cells per row/col. -/
def GRID : Int := 20

/-- MUSHROOMS.length = 5, number of cosmetic food variants. -/
def MUSHROOM_VARIANTS : Nat := 5

/-- MAX_PART = 50, cap on ambient canvas particles. -/
def MAX_PART : Nat := 50

/-- SIZE = GRID * CELL = 500 pixels, the canvas side length. -/
def SIZE : Rat := 500

-- ─── Data model (the `gs` object, game.js lines 50-63) ───

/-- Round-lifecycle phase: idle | playing | paused | dead. -/
inductive Phase where
  | idle
  | playing
  | paused
  | dead
deriving DecidableEq

/-- A direction vector `{x, y}`. -/
structure Dir where
  x : Int
  y : Int
deriving DecidableEq

/-- One snake segment `{x, y, px, py}`: current grid cell and the grid
cell at the start of the current tick interval. -/
structure Segment where
  x  : Int
  y  : Int
  px : Int
  py : Int
deriving DecidableEq

/-- The food item `{x, y, mush}`: grid cell plus cosmetic variant index. -/
structure Food where
  x    : Int
  y    : Int
  mush : Nat
deriving DecidableEq

/-- The simulation-relevant fields of the global `gs` object.  The
effect pools (`particles`, `floatTexts`) and the frame counter never
feed back into these fields and are modelled separately below. -/
structure GameState where
  phase     : Phase
  snake     : List Segment
  dir       : Dir
  nextDir   : Dir
  food      : Food
  score     : Nat
  best      : Nat
  lastTick  : Nat
  dirLocked : Bool
deriving DecidableEq

/-- Initial `gs` literal (game.js lines 50-63), with `best` already set
to the value `loadBest()` returned in `init()` (line 648). -/
def initState (b0 : Nat) : GameState :=
  { phase := Phase.idle, snake := [], dir := ⟨1, 0⟩, nextDir := ⟨1, 0⟩,
    food := ⟨0, 0, 0⟩, score := 0, best := b0, lastTick := 0, dirLocked := false }

-- ─── Derived views of the snake ───

/-- Current grid cells of the segments, head first. -/
def posList (snake : List Segment) : List (Int × Int) :=
  snake.map fun s => (s.x, s.y)

/-- Step 1 of `tick`: copy the current cell into the previous-cell field
(`s.px = s.x; s.py = s.y`, line 481). -/
def savePrev (s : Segment) : Segment :=
  { s with px := s.x, py := s.y }

/-- Overwrite a segment's current cell (used by the cascade). -/
def setPos (s : Segment) (c : Int × Int) : Segment :=
  { s with x := c.1, y := c.2 }

/-- Candidate head cell: current head cell plus active direction
(lines 484-485). -/
def candHead (s0 : Segment) (d : Dir) : Int × Int :=
  (s0.x + d.x, s0.y + d.y)

/-- Wall collision test (line 488): candidate outside `[0, GRID)` in
either axis. -/
def wallHit (c : Int × Int) : Prop :=
  c.1 < 0 ∨ GRID ≤ c.1 ∨ c.2 < 0 ∨ GRID ≤ c.2

instance (c : Int × Int) : Decidable (wallHit c) := by
  unfold wallHit; infer_instance

/-- Self-collision test (lines 491-493): the candidate equals the
current cell of some segment other than the last (tail) segment. -/
def hitsSelf (snake : List Segment) (c : Int × Int) : Bool :=
  snake.dropLast.any fun s => s.x == c.1 && s.y == c.2

/-- The cascade (lines 499-504): iterated tail-to-head, each segment
takes the position currently held by the segment ahead of it, and the
head takes the candidate cell.  Functionally: segment `i > 0` receives
the pre-cascade position of segment `i-1`. -/
def cascade : List Segment → Int × Int → List Segment
  | [], _ => []
  | s :: rest, c => setPos s c :: cascade rest (s.x, s.y)

/-- Growth (lines 521-522): push a duplicate of the (post-cascade) tail
segment, same `(x, y)` and `(px, py)`. -/
def grow (snake : List Segment) : List Segment :=
  match snake.getLast? with
  | none => snake
  | some t => snake ++ [t]

-- ─── Food placement (placeFood, lines 448-454) ───

/-- Occupancy test: the cell is the current cell of some segment
(the `occ` set of line 449). -/
def occupied (snake : List Segment) (c : Int × Int) : Bool :=
  snake.any fun s => s.x == c.1 && s.y == c.2

/-- The `do { x = rndInt(GRID); y = rndInt(GRID); } while (occ.has(...))`
loop of lines 450-452, with the random draws supplied by the oracle
stream `rs` and an explicit fuel bound.  The source loop has no bound:
`some` after `fuel` steps means the real loop returns the same cell in
at most `fuel` iterations; `none` means it has not returned yet. -/
def placeFoodLoop : Nat → (Nat → Int × Int) → List Segment → Nat → Option (Int × Int)
  | 0, _, _, _ => none
  | fuel + 1, rs, snake, k =>
    if occupied snake (rs k) then placeFoodLoop fuel rs snake (k + 1)
    else some (rs k)

/-- Model of `placeFood` (lines 448-454): rejection-sample a cell, then attach the
cosmetic variant `m = rndInt(MUSHROOMS.length)` drawn after the loop. -/
def placeFood (fuel : Nat) (rs : Nat → Int × Int) (m : Nat)
    (snake : List Segment) : Option Food :=
  (placeFoodLoop fuel rs snake 0).map fun c => ⟨c.1, c.2, m⟩

/-- The oracle stream only produces values `rndInt(GRID)` can produce:
integers in `[0, GRID)` for both axes. -/
def StreamOk (rs : Nat → Int × Int) : Prop :=
  ∀ n, 0 ≤ (rs n).1 ∧ (rs n).1 < GRID ∧ 0 ≤ (rs n).2 ∧ (rs n).2 < GRID

/-- Predicate: `f` is a possible result of `placeFood` run against `snake`: some
fuel bound, some in-range random stream and some variant index produce
it. -/
def PlacedFrom (snake : List Segment) (f : Food) : Prop :=
  ∃ fuel rs m, StreamOk rs ∧ m < MUSHROOM_VARIANTS ∧
    placeFood fuel rs m snake = some f

-- ─── Round setup (buildSnake / startGame / die) ───

/-- Model of `buildSnake` (lines 456-464): three segments centered on the grid,
head first, facing right, `px/py` equal to `x/y`. -/
def buildSnake : List Segment :=
  [ ⟨10, 10, 10, 10⟩, ⟨9, 10, 9, 10⟩, ⟨8, 10, 8, 10⟩ ]

/-- Model of `startGame` (lines 545-558).  `f` is the food `placeFood()` produced
(constrained by `PlacedFrom buildSnake f` in the step relation); `now`
is `performance.now()`.  Overlay and DOM writes are external effects. -/
def startGame (f : Food) (now : Nat) (g : GameState) : GameState :=
  { g with phase := Phase.playing, snake := buildSnake,
           dir := ⟨1, 0⟩, nextDir := ⟨1, 0⟩, score := 0,
           dirLocked := false, lastTick := now, food := f }

-- ─── The tick (lines 473-526) ───

/-- Model of `tick()` (lines 473-526).  `pf` is the food `placeFood()` produces in
the eat branch (constrained in the step relation); it is unused on the
other paths.  Mutation order follows the source: direction commit and
lock release, `px/py` save, wall check, self check, food check, cascade,
then score/best/growth/relocation.  `die()` (line 528) sets the phase to
`dead`; its burst, shake and overlay are rendering effects.  With an
empty snake the source would fault reading `snake[0]` (unreachable:
`playing` states always carry a nonempty snake); that branch is mapped
to the identity. -/
def tick (pf : Food) (g : GameState) : GameState :=
  if g.phase = Phase.playing then
    match g.snake with
    | [] => g
    | s0 :: rest =>
      let d := g.nextDir
      let snake1 := (s0 :: rest).map savePrev
      let c := candHead s0 d
      if wallHit c then
        { g with dir := d, dirLocked := false, snake := snake1, phase := Phase.dead }
      else if hitsSelf snake1 c then
        { g with dir := d, dirLocked := false, snake := snake1, phase := Phase.dead }
      else if c.1 = g.food.x ∧ c.2 = g.food.y then
        { g with dir := d, dirLocked := false,
                 snake := grow (cascade snake1 c),
                 score := g.score + 1,
                 best := if g.best < g.score + 1 then g.score + 1 else g.best,
                 food := pf }
      else
        { g with dir := d, dirLocked := false, snake := cascade snake1 c }
  else g

/-- The tick reaches its eat branch: playing phase, nonempty snake,
candidate in bounds, no self collision, candidate on the food cell.
Exactly on these runs does `tick` call `placeFood`. -/
def TickEats (g : GameState) : Prop :=
  g.phase = Phase.playing ∧
  match g.snake with
  | [] => False
  | s0 :: rest =>
    ¬ wallHit (candHead s0 g.nextDir) ∧
    hitsSelf ((s0 :: rest).map savePrev) (candHead s0 g.nextDir) = false ∧
    (candHead s0 g.nextDir).1 = g.food.x ∧ (candHead s0 g.nextDir).2 = g.food.y

-- ─── Input (keyToDir and the keydown handler, lines 562-610) ───

/-- Model of `keyToDir` (lines 562-568). -/
def keyToDir (k : String) : Option Dir :=
  if k = "ArrowRight" ∨ k = "d" ∨ k = "D" then some ⟨1, 0⟩
  else if k = "ArrowLeft" ∨ k = "a" ∨ k = "A" then some ⟨-1, 0⟩
  else if k = "ArrowUp" ∨ k = "w" ∨ k = "W" then some ⟨0, -1⟩
  else if k = "ArrowDown" ∨ k = "s" ∨ k = "S" then some ⟨0, 1⟩
  else none

/-- The `keydown` handler (lines 570-604), branch for branch.  `now` is
`performance.now()`; `f` is the food `placeFood()` would produce if this
event starts a round. -/
def keydown (k : String) (now : Nat) (f : Food) (g : GameState) : GameState :=
  if (k = "Enter" ∨ k = " ") ∧ g.phase ≠ Phase.playing ∧ g.phase ≠ Phase.paused then
    startGame f now g
  else if (k = "p" ∨ k = "P" ∨ k = "Escape") ∧ g.phase = Phase.playing then
    { g with phase := Phase.paused }
  else if (k = "p" ∨ k = "P" ∨ k = "Escape" ∨ k = " ") ∧ g.phase = Phase.paused then
    { g with phase := Phase.playing, lastTick := now }
  else if k = " " ∧ g.phase = Phase.playing then
    { g with phase := Phase.paused }
  else if g.phase ≠ Phase.playing ∨ g.dirLocked then g
  else
    match keyToDir k with
    | none => g
    | some nd =>
      if nd.x ≠ 0 ∧ nd.x = -g.dir.x then g
      else if nd.y ≠ 0 ∧ nd.y = -g.dir.y then g
      else { g with nextDir := nd, dirLocked := true }

/-- The action-button click handler (lines 606-610): resume when paused,
otherwise start a round. -/
def click (now : Nat) (f : Food) (g : GameState) : GameState :=
  if g.phase = Phase.paused then { g with phase := Phase.playing, lastTick := now }
  else startGame f now g

-- ─── Session step relation and reachability ───

/-- One externally triggered transition of the engine: a due tick
(`gameLoop`, lines 618-621), a keydown event, or an action-button click.
Food oracles are constrained to values `placeFood` can actually return
against the snake present at its call site (the grown snake inside an
eating tick, `buildSnake` inside `startGame`). -/
inductive Step : GameState → GameState → Prop
  | tick (g : GameState) (pf : Food)
      (h : TickEats g → PlacedFrom (tick pf g).snake pf) :
      Step g (tick pf g)
  | key (g : GameState) (k : String) (now : Nat) (f : Food)
      (h : PlacedFrom buildSnake f) :
      Step g (keydown k now f g)
  | click (g : GameState) (now : Nat) (f : Food)
      (h : PlacedFrom buildSnake f) :
      Step g (click now f g)

/-- Ghost store transition: `saveBest` (line 513) is called exactly when
the tick raises `gs.best`, writing the new best; otherwise the persisted
value is unchanged. -/
def storeAfter (g g' : GameState) (st : Nat) : Nat :=
  if g.best < g'.best then g'.best else st

/-- States reachable in one session from the initial `gs` (with `best`
loaded as `b0`), carrying two ghost values: `m`, the highest round score
attained so far, and `st`, the current content of the persisted store
(assumed to read back as `b0` at startup). -/
inductive Reach (b0 : Nat) : GameState → Nat → Nat → Prop
  | init : Reach b0 (initState b0) 0 b0
  | step {g m st g'} : Reach b0 g m st → Step g g' →
      Reach b0 g' (max m g'.score) (storeAfter g g' st)

-- ─── Particles (lines 116-142) ───

/-- One canvas particle (line 119-127). -/
structure Particle where
  x        : Rat
  y        : Rat
  vx       : Rat
  vy       : Rat
  size     : Rat
  colorIdx : Nat
  life     : Rat
  decay    : Rat
deriving DecidableEq

/-- Per-frame advance of one particle (lines 137-139): move by the
velocity, then apply gravity `vy += 0.05`, then decay the life. -/
def stepParticle (p : Particle) : Particle :=
  { p with x := p.x + p.vx, y := p.y + p.vy, vy := p.vy + 1/20,
           life := p.life - p.decay }

/-- Removal condition (line 140): the particle is spliced out exactly
when `p.life <= 0 || p.y < -10` after its advance. -/
def particleGone (p : Particle) : Prop :=
  p.life ≤ 0 ∨ p.y < -10

instance (p : Particle) : Decidable (particleGone p) := by
  unfold particleGone; infer_instance

/-- Model of `updateParticles` (lines 131-142): possibly spawn one ambient
particle (every fifth frame while below the cap; `sp` is the randomly
generated particle), then advance every particle and splice out the ones
satisfying the removal condition.  The reverse-indexed splice loop is
functionally a map followed by a filter. -/
def updateParticles (frame : Nat) (sp : Particle) (ps : List Particle) : List Particle :=
  let ps1 := if frame % 5 = 0 ∧ ps.length < MAX_PART then ps ++ [sp] else ps
  (ps1.map stepParticle).filter fun p => !decide (particleGone p)

-- ─── Distinctness invariant shapes (for C1) ───

/-- Segment cells are pairwise distinct, except that the two trailing
segments may share one cell (the state a growth tick leaves behind,
resolved by the next cascade). -/
def AlmostNodup (ps : List (Int × Int)) : Prop :=
  ps.Nodup ∨ ∃ qs p, ps = qs ++ [p, p] ∧ (qs ++ [p]).Nodup

-- ─── Concrete states used in witnesses and counterexamples ───

/-- The Enter key string. -/
def enterKey : String := "Enter"

/-- The left-arrow key string. -/
def leftKey : String := "ArrowLeft"

/-- The up-arrow key string. -/
def upKey : String := "ArrowUp"

/-- A fresh round: Enter pressed in the initial idle state, with the
first food placed directly ahead of the head at `(11, 10)`. -/
def gameStart : GameState := keydown enterKey 0 ⟨11, 10, 0⟩ (initState 0)

/-- The state at the end of the first tick of `gameStart`: the creature
eats the food at `(11, 10)` and grows; the relocated food is `(0, 0)`. -/
def gameAte : GameState := tick ⟨0, 0, 0⟩ gameStart

/-- A playing state whose head sits against the right wall. -/
def gameAtWall : GameState :=
  { gameStart with snake := [⟨19, 10, 19, 10⟩, ⟨18, 10, 18, 10⟩, ⟨17, 10, 17, 10⟩] }

/-- A snake occupying every cell of the 20×20 grid (the exhausted
free-cell situation of the item-placement claim). -/
def fullSnake : List Segment :=
  (List.range 400).map fun i =>
    ⟨Int.ofNat (i % 20), Int.ofNat (i / 20), Int.ofNat (i % 20), Int.ofNat (i / 20)⟩

/-- A particle parked far right of the visible canvas (x = 600 while the
canvas is 500 pixels wide), with ample life and slow decay. -/
def strayParticle : Particle := ⟨600, 100, 0, 0, 1, 0, 1, 1/100⟩

/-- The fresh round with an up-turn already queued and the per-tick
direction lock engaged. -/
def gameQueuedUp : GameState := keydown upKey 0 ⟨1, 1, 0⟩ gameStart

/-- A playing state whose candidate head cell `(11, 10)` is the current
cell of the fourth of five segments (a non-tail body segment). -/
def gameSelfHit : GameState :=
  { gameStart with snake := [⟨10, 10, 10, 10⟩, ⟨10, 11, 10, 11⟩, ⟨11, 11, 11, 11⟩, ⟨11, 10, 11, 10⟩, ⟨12, 10, 12, 10⟩] }

-- ─── List/position helper lemmas ───

theorem posList_map_savePrev (l : List Segment) : posList (l.map savePrev) = posList l := by
  simp only [posList, List.map_map]
  rfl

theorem posList_dropLast (l : List Segment) : posList l.dropLast = (posList l).dropLast :=
  List.map_dropLast _ _

theorem occupied_iff (snake : List Segment) (c : Int × Int) :
    occupied snake c = true ↔ c ∈ posList snake := by
  simp only [occupied, List.any_eq_true, Bool.and_eq_true, beq_iff_eq,
    posList, List.mem_map]
  constructor
  · rintro ⟨s, hs, h1, h2⟩
    exact ⟨s, hs, by rw [h1, h2]⟩
  · rintro ⟨s, hs, rfl⟩
    exact ⟨s, hs, rfl, rfl⟩

theorem hitsSelf_eq_occupied (snake : List Segment) (c : Int × Int) :
    hitsSelf snake c = occupied snake.dropLast c := rfl

theorem hitsSelf_iff (snake : List Segment) (c : Int × Int) :
    hitsSelf snake c = true ↔ c ∈ posList snake.dropLast := by
  rw [hitsSelf_eq_occupied]; exact occupied_iff _ _

theorem hitsSelf_map_savePrev (l : List Segment) (c : Int × Int) :
    hitsSelf (l.map savePrev) c = hitsSelf l c := by
  unfold hitsSelf
  rw [← List.map_dropLast, List.any_map]
  rfl

theorem posList_cascade (l : List Segment) (c : Int × Int) :
    posList (cascade l c) = (c :: posList l).dropLast := by
  induction l generalizing c with
  | nil => rfl
  | cons s t ih =>
    simp only [cascade, posList, List.map_cons] at ih ⊢
    simp only [setPos]
    rw [ih]
    rfl

theorem cascade_length (l : List Segment) (c : Int × Int) :
    (cascade l c).length = l.length := by
  induction l generalizing c with
  | nil => rfl
  | cons s t ih => simp [cascade, ih]

theorem cascade_ne_nil (s : Segment) (t : List Segment) (c : Int × Int) :
    cascade (s :: t) c ≠ [] := by
  simp [cascade]

theorem grow_eq (l : List Segment) (h : l ≠ []) :
    grow l = l ++ [l.getLast h] := by
  unfold grow
  rw [List.getLast?_eq_getLast l h]

theorem posList_grow (l : List Segment) (h : l ≠ []) (h2 : posList l ≠ []) :
    posList (grow l) = posList l ++ [(posList l).getLast h2] := by
  rw [grow_eq l h]
  simp only [posList, List.map_append, List.map_cons, List.map_nil]
  rw [List.getLast_map]

theorem almostNodup_append_getLast (L : List (Int × Int)) (h : L ≠ []) (hn : L.Nodup) :
    AlmostNodup (L ++ [L.getLast h]) := by
  obtain ⟨qs, p, rfl⟩ : ∃ qs p, L = qs ++ [p] :=
    ⟨L.dropLast, L.getLast h, (List.dropLast_append_getLast h).symm⟩
  right
  exact ⟨qs, p, by simp, by simpa using hn⟩

theorem almostNodup_dropLast {ps : List (Int × Int)} (h : AlmostNodup ps) :
    ps.dropLast.Nodup := by
  rcases h with h | ⟨qs, p, rfl, hn⟩
  · exact (List.dropLast_sublist ps).nodup h
  · rw [show qs ++ [p, p] = (qs ++ [p]) ++ [p] by simp, List.dropLast_concat]
    exact hn

theorem tick_wall (pf : Food) (g : GameState) (s0 : Segment) (rest : List Segment)
    (h1 : g.phase = Phase.playing) (h2 : g.snake = s0 :: rest)
    (h3 : wallHit (candHead s0 g.nextDir)) :
    tick pf g = { g with dir := g.nextDir, dirLocked := false, snake := (s0 :: rest).map savePrev, phase := Phase.dead } := by
  obtain ⟨ph, sn, dir, nd, fd, sc, bs, lt, dl⟩ := g
  simp only at h1 h2 h3 ⊢
  subst h1; subst h2
  simp only [tick, if_true]
  rw [if_pos h3]

theorem tick_self (pf : Food) (g : GameState) (s0 : Segment) (rest : List Segment)
    (h1 : g.phase = Phase.playing) (h2 : g.snake = s0 :: rest)
    (h3 : ¬ wallHit (candHead s0 g.nextDir))
    (h4 : hitsSelf ((s0 :: rest).map savePrev) (candHead s0 g.nextDir) = true) :
    tick pf g = { g with dir := g.nextDir, dirLocked := false, snake := (s0 :: rest).map savePrev, phase := Phase.dead } := by
  obtain ⟨ph, sn, dir, nd, fd, sc, bs, lt, dl⟩ := g
  simp only at h1 h2 h3 h4 ⊢
  subst h1; subst h2
  simp only [tick, if_true]
  rw [if_neg h3, if_pos h4]

theorem tick_eat (pf : Food) (g : GameState) (s0 : Segment) (rest : List Segment)
    (h1 : g.phase = Phase.playing) (h2 : g.snake = s0 :: rest)
    (h3 : ¬ wallHit (candHead s0 g.nextDir))
    (h4 : hitsSelf ((s0 :: rest).map savePrev) (candHead s0 g.nextDir) = false)
    (h5 : (candHead s0 g.nextDir).1 = g.food.x ∧ (candHead s0 g.nextDir).2 = g.food.y) :
    tick pf g = { g with dir := g.nextDir, dirLocked := false, snake := grow (cascade ((s0 :: rest).map savePrev) (candHead s0 g.nextDir)), score := g.score + 1, best := if g.best < g.score + 1 then g.score + 1 else g.best, food := pf } := by
  obtain ⟨ph, sn, dir, nd, fd, sc, bs, lt, dl⟩ := g
  simp only at h1 h2 h3 h4 h5 ⊢
  subst h1; subst h2
  simp only [tick, if_true]
  rw [if_neg h3, if_neg (by simpa using h4), if_pos h5]

theorem tick_move (pf : Food) (g : GameState) (s0 : Segment) (rest : List Segment)
    (h1 : g.phase = Phase.playing) (h2 : g.snake = s0 :: rest)
    (h3 : ¬ wallHit (candHead s0 g.nextDir))
    (h4 : hitsSelf ((s0 :: rest).map savePrev) (candHead s0 g.nextDir) = false)
    (h5 : ¬ ((candHead s0 g.nextDir).1 = g.food.x ∧ (candHead s0 g.nextDir).2 = g.food.y)) :
    tick pf g = { g with dir := g.nextDir, dirLocked := false, snake := cascade ((s0 :: rest).map savePrev) (candHead s0 g.nextDir) } := by
  obtain ⟨ph, sn, dir, nd, fd, sc, bs, lt, dl⟩ := g
  simp only at h1 h2 h3 h4 h5 ⊢
  subst h1; subst h2
  simp only [tick, if_true]
  rw [if_neg h3, if_neg (by simpa using h4), if_neg h5]

theorem keydown_best (k : String) (now : Nat) (f : Food) (g : GameState) :
    (keydown k now f g).best = g.best := by
  unfold keydown startGame
  repeat' split <;> try rfl

theorem keydown_score (k : String) (now : Nat) (f : Food) (g : GameState) :
    (keydown k now f g).score = g.score ∨ (keydown k now f g).score = 0 := by
  unfold keydown startGame
  repeat' split <;> try (first | exact Or.inl rfl | exact Or.inr rfl)

theorem keydown_snake (k : String) (now : Nat) (f : Food) (g : GameState) :
    (keydown k now f g).snake = g.snake ∨ (keydown k now f g).snake = buildSnake := by
  unfold keydown startGame
  repeat' split <;> try (first | exact Or.inl rfl | exact Or.inr rfl)

-- ─── placeFood lemmas ───

theorem placeFoodLoop_not_occupied {fuel : Nat} {rs : Nat → Int × Int}
    {snake : List Segment} {k : Nat} {c : Int × Int}
    (h : placeFoodLoop fuel rs snake k = some c) : occupied snake c = false := by
  induction fuel generalizing k with
  | zero => exact Option.noConfusion h
  | succ n ih =>
    unfold placeFoodLoop at h
    by_cases ho : occupied snake (rs k) = true
    · rw [if_pos ho] at h
      exact ih h
    · rw [if_neg ho] at h
      cases h
      exact Bool.eq_false_iff.mpr ho

theorem placeFood_not_occupied {fuel : Nat} {rs : Nat → Int × Int} {m : Nat}
    {snake : List Segment} {f : Food}
    (h : placeFood fuel rs m snake = some f) :
    occupied snake (f.x, f.y) = false ∧ f.mush = m := by
  unfold placeFood at h
  cases hl : placeFoodLoop fuel rs snake 0 with
  | none => rw [hl] at h; simp at h
  | some c =>
    rw [hl] at h
    simp only [Option.map_some'] at h
    cases h
    exact ⟨placeFoodLoop_not_occupied hl, rfl⟩

theorem placedFrom_not_mem {snake : List Segment} {f : Food}
    (h : PlacedFrom snake f) : (f.x, f.y) ∉ posList snake := by
  obtain ⟨fuel, rs, m, _, _, hp⟩ := h
  intro hmem
  have := (placeFood_not_occupied hp).1
  rw [(occupied_iff snake (f.x, f.y)).mpr hmem] at this
  cases this

theorem placeFoodLoop_finds {rs : Nat → Int × Int} {snake : List Segment}
    (n : Nat) : ∀ k, occupied snake (rs (k + n)) = false →
      ∃ c, placeFoodLoop (n + 1) rs snake k = some c ∧ occupied snake c = false := by
  induction n with
  | zero =>
    intro k hk
    refine ⟨rs k, ?_, by simpa using hk⟩
    unfold placeFoodLoop
    rw [if_neg (by simpa using hk)]
  | succ n ih =>
    intro k hk
    unfold placeFoodLoop
    by_cases ho : occupied snake (rs k) = true
    · rw [if_pos ho]
      exact ih (k + 1) (by rw [show k + 1 + n = k + (n + 1) by omega]; exact hk)
    · rw [if_neg ho]
      exact ⟨rs k, rfl, Bool.eq_false_iff.mpr ho⟩

-- ─── Direction lemmas ───

/-- The four unit direction vectors `keyToDir` can produce. -/
def UnitDir (d : Dir) : Prop :=
  d = ⟨1, 0⟩ ∨ d = ⟨-1, 0⟩ ∨ d = ⟨0, -1⟩ ∨ d = ⟨0, 1⟩

/-- The exact reverse of a direction. -/
def dirNeg (d : Dir) : Dir := ⟨-d.x, -d.y⟩

/-- Invariant tying the committed and queued directions: both are unit
vectors and the queued one is never the exact reverse of the committed
one. -/
def DirInv (g : GameState) : Prop :=
  UnitDir g.dir ∧ UnitDir g.nextDir ∧ g.nextDir ≠ dirNeg g.dir

theorem keyToDir_unit {k : String} {nd : Dir} (h : keyToDir k = some nd) :
    UnitDir nd := by
  unfold keyToDir at h
  split_ifs at h <;> simp_all [UnitDir]

theorem keyToDir_not_special {k : String} {nd : Dir} (h : keyToDir k = some nd) :
    k ≠ "Enter" ∧ k ≠ " " ∧ k ≠ "p" ∧ k ≠ "P" ∧ k ≠ "Escape" := by
  unfold keyToDir at h
  split_ifs at h with h1 h2 h3 h4
  · rcases h1 with rfl | rfl | rfl <;>
      exact ⟨by decide, by decide, by decide, by decide, by decide⟩
  · rcases h2 with rfl | rfl | rfl <;>
      exact ⟨by decide, by decide, by decide, by decide, by decide⟩
  · rcases h3 with rfl | rfl | rfl <;>
      exact ⟨by decide, by decide, by decide, by decide, by decide⟩
  · rcases h4 with rfl | rfl | rfl <;>
      exact ⟨by decide, by decide, by decide, by decide, by decide⟩

theorem unit_ne_dirNeg {d : Dir} (h : UnitDir d) : d ≠ dirNeg d := by
  rcases h with rfl | rfl | rfl | rfl <;> decide

theorem unit_not_rev {nd : Dir} {dx dy : Int} (hu : UnitDir nd)
    (h1 : ¬ (nd.x ≠ 0 ∧ nd.x = -dx)) (h2 : ¬ (nd.y ≠ 0 ∧ nd.y = -dy)) :
    nd ≠ Dir.mk (-dx) (-dy) := by
  intro heq
  rcases hu with rfl | rfl | rfl | rfl
  · exact h1 ⟨by decide, congrArg Dir.x heq⟩
  · exact h1 ⟨by decide, congrArg Dir.x heq⟩
  · exact h2 ⟨by decide, congrArg Dir.y heq⟩
  · exact h2 ⟨by decide, congrArg Dir.y heq⟩

/-- A locked direction input: any direction key leaves the state
unchanged (the one-change-per-tick lock of lines 596, 603). -/
theorem keydown_locked {k : String} {nd : Dir} (now : Nat) (f : Food) (g : GameState)
    (hl : g.dirLocked = true) (hk : keyToDir k = some nd) :
    keydown k now f g = g := by
  obtain ⟨e1, e2, p1, p2, p3⟩ := keyToDir_not_special hk
  unfold keydown
  rw [if_neg (by tauto), if_neg (by tauto), if_neg (by tauto), if_neg (by tauto),
    if_pos (Or.inr hl)]

/-- Commit effect of the tick on the two direction fields. -/
theorem tick_dirs (pf : Food) (g : GameState) :
    (tick pf g).nextDir = g.nextDir ∧ ((tick pf g).dir = g.nextDir ∨ tick pf g = g) := by
  unfold tick
  split
  case isFalse => exact ⟨rfl, Or.inr rfl⟩
  split
  case h_1 => exact ⟨rfl, Or.inr rfl⟩
  case h_2 =>
    dsimp only
    split_ifs <;> exact ⟨rfl, Or.inl rfl⟩

theorem tick_score_best (pf : Food) (g : GameState) :
    ((tick pf g).score = g.score ∧ (tick pf g).best = g.best) ∨
      ((tick pf g).score = g.score + 1 ∧ (tick pf g).best = if g.best < g.score + 1 then g.score + 1 else g.best) := by
  unfold tick
  split
  case isFalse => exact Or.inl ⟨rfl, rfl⟩
  split
  case h_1 => exact Or.inl ⟨rfl, rfl⟩
  case h_2 =>
    dsimp only
    split_ifs <;> first
    | exact Or.inl ⟨rfl, rfl⟩
    | exact Or.inr ⟨rfl, rfl⟩

theorem keydown_dirInv (k : String) (now : Nat) (f : Food) (g : GameState)
    (h : DirInv g) : DirInv (keydown k now f g) := by
  unfold keydown startGame
  split_ifs with h1 h2 h3 h4 h5
  · exact ⟨Or.inl rfl, Or.inl rfl,
      fun hh => by have hx := congrArg Dir.x hh; simp [dirNeg] at hx⟩
  · exact h
  · exact h
  · exact h
  · exact h
  · cases hk : keyToDir k with
    | none => exact h
    | some nd =>
      have hu := keyToDir_unit hk
      dsimp only
      split_ifs with hg1 hg2
      · exact h
      · exact h
      · exact ⟨h.1, hu, unit_not_rev hu hg1 hg2⟩

theorem click_dirInv (now : Nat) (f : Food) (g : GameState)
    (h : DirInv g) : DirInv (click now f g) := by
  unfold click startGame
  split_ifs
  · exact h
  · exact ⟨Or.inl rfl, Or.inl rfl,
      fun hh => by have hx := congrArg Dir.x hh; simp [dirNeg] at hx⟩

theorem tick_dirInv (pf : Food) (g : GameState) (h : DirInv g) :
    DirInv (tick pf g) := by
  obtain ⟨hn, hd⟩ := tick_dirs pf g
  rcases hd with hd | hd
  · exact ⟨by rw [hd]; exact h.2.1, by rw [hn]; exact h.2.1,
      by rw [hn, hd]; exact unit_ne_dirNeg h.2.1⟩
  · rw [hd]; exact h

theorem step_dirInv {g g' : GameState} (h : Step g g') (inv : DirInv g) : DirInv g' := by
  cases h with
  | tick pf hp => exact tick_dirInv pf _ inv
  | key k now f hf => exact keydown_dirInv k now f _ inv
  | click now f hf => exact click_dirInv now f _ inv

theorem reach_dirInv {b0 : Nat} {g : GameState} {m st : Nat}
    (h : Reach b0 g m st) : DirInv g := by
  induction h with
  | init => exact ⟨Or.inl rfl, Or.inl rfl,
      fun hh => by have hx := congrArg Dir.x hh; simp [dirNeg, initState] at hx⟩
  | step hr hs ih => exact step_dirInv hs ih

-- ─── Click handler field lemmas ───

theorem tick_not_playing (pf : Food) (g : GameState) (h : g.phase ≠ Phase.playing) :
    tick pf g = g := by
  unfold tick
  rw [if_neg h]

theorem tick_nil (pf : Food) (g : GameState) (h : g.snake = []) :
    tick pf g = g := by
  unfold tick
  split
  · rw [h]
  · rfl

theorem click_best (now : Nat) (f : Food) (g : GameState) :
    (click now f g).best = g.best := by
  unfold click startGame
  split_ifs <;> rfl

theorem click_score (now : Nat) (f : Food) (g : GameState) :
    (click now f g).score = g.score ∨ (click now f g).score = 0 := by
  unfold click startGame
  split_ifs
  · exact Or.inl rfl
  · exact Or.inr rfl

theorem click_snake (now : Nat) (f : Food) (g : GameState) :
    (click now f g).snake = g.snake ∨ (click now f g).snake = buildSnake := by
  unfold click startGame
  split_ifs
  · exact Or.inl rfl
  · exact Or.inr rfl

-- ─── Distinctness preservation (for C1) ───

theorem almostNodup_buildSnake : AlmostNodup (posList buildSnake) := by
  left; decide

theorem tick_almostNodup (pf : Food) (g : GameState)
    (inv : AlmostNodup (posList g.snake)) : AlmostNodup (posList (tick pf g).snake) := by
  by_cases h1 : g.phase = Phase.playing
  case neg => rw [tick_not_playing pf g h1]; exact inv
  cases hsn : g.snake with
  | nil => rw [tick_nil pf g hsn]; exact inv
  | cons s0 rest =>
    rw [hsn] at inv
    by_cases h3 : wallHit (candHead s0 g.nextDir)
    · rw [tick_wall pf g s0 rest h1 hsn h3]
      simpa only [posList_map_savePrev] using inv
    cases hhs : hitsSelf ((s0 :: rest).map savePrev) (candHead s0 g.nextDir) with
    | true =>
      rw [tick_self pf g s0 rest h1 hsn h3 hhs]
      simpa only [posList_map_savePrev] using inv
    | false =>
      have hcnot : candHead s0 g.nextDir ∉ (posList (s0 :: rest)).dropLast := by
        rw [hitsSelf_map_savePrev] at hhs
        intro hmem
        rw [(hitsSelf_iff _ _).mpr (by rwa [posList_dropLast])] at hhs
        cases hhs
      have hcore : (candHead s0 g.nextDir :: (posList (s0 :: rest)).dropLast).Nodup :=
        List.nodup_cons.mpr ⟨hcnot, almostNodup_dropLast inv⟩
      have hcasc : posList (cascade ((s0 :: rest).map savePrev) (candHead s0 g.nextDir))
          = candHead s0 g.nextDir :: (posList (s0 :: rest)).dropLast := by
        rw [posList_cascade, posList_map_savePrev]
        exact List.dropLast_cons_of_ne_nil (by simp [posList])
      by_cases h5 : (candHead s0 g.nextDir).1 = g.food.x ∧ (candHead s0 g.nextDir).2 = g.food.y
      · rw [tick_eat pf g s0 rest h1 hsn h3 hhs h5]
        have hne : cascade ((s0 :: rest).map savePrev) (candHead s0 g.nextDir) ≠ [] := by
          simp only [List.map_cons]
          exact cascade_ne_nil _ _ _
        have hpne : posList (cascade ((s0 :: rest).map savePrev) (candHead s0 g.nextDir)) ≠ [] := by
          rw [hcasc]; simp
        rw [posList_grow _ hne hpne]
        exact almostNodup_append_getLast _ hpne (by rw [hcasc]; exact hcore)
      · rw [tick_move pf g s0 rest h1 hsn h3 hhs h5]
        rw [hcasc]
        exact Or.inl hcore

theorem step_almostNodup {g g' : GameState} (h : Step g g')
    (inv : AlmostNodup (posList g.snake)) : AlmostNodup (posList g'.snake) := by
  cases h with
  | tick pf hp => exact tick_almostNodup pf _ inv
  | key k now f hf =>
    rcases keydown_snake k now f _ with h | h <;> rw [h]
    · exact inv
    · exact almostNodup_buildSnake
  | click now f hf =>
    rcases click_snake now f _ with h | h <;> rw [h]
    · exact inv
    · exact almostNodup_buildSnake

-- ─── Best-score lemmas (for C6) ───

theorem tick_best_le (pf : Food) (g : GameState) : g.best ≤ (tick pf g).best := by
  rcases tick_score_best pf g with ⟨_, hb⟩ | ⟨_, hb⟩
  · rw [hb]
  · rw [hb]
    split_ifs with h
    · omega
    · exact le_refl _

theorem step_best_le {g g' : GameState} (h : Step g g') : g.best ≤ g'.best := by
  cases h with
  | tick pf hp => exact tick_best_le pf _
  | key k now f hf => rw [keydown_best]
  | click now f hf => rw [click_best]

/-- Core bookkeeping invariant of one session: the in-memory best equals
the maximum of the loaded value and the highest score attained, the
persisted store always holds the in-memory best, and the current score
never exceeds the attained maximum. -/
theorem reach_best_inv {b0 : Nat} {g : GameState} {m st : Nat}
    (h : Reach b0 g m st) : g.best = max b0 m ∧ st = g.best ∧ g.score ≤ m := by
  induction h with
  | init => simp [initState]
  | step hr hs ih =>
    obtain ⟨ihb, ihst, ihsc⟩ := ih
    rename_i g m st g'
    refine ⟨?_, ?_, le_max_right _ _⟩
    case _ =>
      cases hs with
      | tick pf hp =>
        rcases tick_score_best pf g with ⟨hsc, hb⟩ | ⟨hsc, hb⟩
        · rw [hb, hsc, ihb]
          omega
        · rw [hb, hsc, ihb]
          split_ifs with hlt <;> omega
      | key k now f hf =>
        rw [keydown_best, ihb]
        rcases keydown_score k now f g with hsc | hsc <;> rw [hsc] <;> omega
      | click now f hf =>
        rw [click_best, ihb]
        rcases click_score now f g with hsc | hsc <;> rw [hsc] <;> omega
    case _ =>
      unfold storeAfter
      split_ifs with hlt
      · rfl
      · have := step_best_le hs
        rw [ihst, ihb]
        have hb' : g'.best = g.best := by omega
        rw [hb', ihb]

theorem streamOk_const (c : Int × Int)
    (h : 0 ≤ c.1 ∧ c.1 < GRID ∧ 0 ≤ c.2 ∧ c.2 < GRID) :
    StreamOk (fun _ => c) := fun _ => h

theorem grow_snoc (qs : List Segment) (t : Segment) :
    grow (qs ++ [t]) = qs ++ [t, t] := by
  unfold grow
  rw [List.getLast?_concat]
  simp

theorem cascade_decomp (l : List Segment) (c : Int × Int) (h : l ≠ []) :
    ∃ qs t, cascade l c = qs ++ [t] := by
  have : cascade l c ≠ [] := by
    cases l with
    | nil => exact absurd rfl h
    | cons s rest => exact cascade_ne_nil s rest c
  exact ⟨(cascade l c).dropLast, (cascade l c).getLast this,
    (List.dropLast_append_getLast this).symm⟩

-- ─── Claim theorems ───

/-- Claim C3: a tick in phase playing whose candidate head cell lies
outside the board transitions the phase to dead and leaves every
segment's current cell unchanged (no cascade runs). -/
theorem c3_wall_death (pf : Food) (g : GameState) (s0 : Segment) (rest : List Segment)
    (h1 : g.phase = Phase.playing) (h2 : g.snake = s0 :: rest)
    (h3 : wallHit (candHead s0 g.nextDir)) :
    (tick pf g).phase = Phase.dead ∧ posList (tick pf g).snake = posList g.snake := by
  rw [tick_wall pf g s0 rest h1 h2 h3]
  exact ⟨rfl, by rw [h2]; exact posList_map_savePrev _⟩

/-- Witness for C3: the concrete wall state dies in place. -/
theorem c3_witness :
    (tick ⟨0, 0, 0⟩ gameAtWall).phase = Phase.dead ∧
      posList (tick ⟨0, 0, 0⟩ gameAtWall).snake = posList gameAtWall.snake :=
  c3_wall_death ⟨0, 0, 0⟩ gameAtWall ⟨19, 10, 19, 10⟩ [⟨18, 10, 18, 10⟩, ⟨17, 10, 17, 10⟩]
    (by decide) (by decide) (by decide)

/-- Claim C4: a tick in phase playing whose candidate head cell equals a
non-tail segment's current cell transitions the phase to dead with the
score unchanged; a candidate cell not on any non-tail segment (in
particular one equal only to the tail's cell) does not trigger death. -/
theorem c4_self_collision (pf : Food) (g : GameState) (s0 : Segment) (rest : List Segment)
    (h1 : g.phase = Phase.playing) (h2 : g.snake = s0 :: rest) :
    (candHead s0 g.nextDir ∈ posList g.snake.dropLast →
      (tick pf g).phase = Phase.dead ∧ (tick pf g).score = g.score) ∧
    (¬ wallHit (candHead s0 g.nextDir) → candHead s0 g.nextDir ∉ posList g.snake.dropLast →
      (tick pf g).phase = Phase.playing) := by
  constructor
  · intro hmem
    by_cases h3 : wallHit (candHead s0 g.nextDir)
    · rw [tick_wall pf g s0 rest h1 h2 h3]
      exact ⟨rfl, rfl⟩
    · have h4 : hitsSelf ((s0 :: rest).map savePrev) (candHead s0 g.nextDir) = true := by
        rw [hitsSelf_map_savePrev]
        exact (hitsSelf_iff _ _).mpr (by rw [← h2]; exact hmem)
      rw [tick_self pf g s0 rest h1 h2 h3 h4]
      exact ⟨rfl, rfl⟩
  · intro h3 hnot
    have h4 : hitsSelf ((s0 :: rest).map savePrev) (candHead s0 g.nextDir) = false := by
      rw [hitsSelf_map_savePrev]
      refine Bool.eq_false_iff.mpr fun ht => hnot ?_
      rw [h2]
      exact (hitsSelf_iff _ _).mp ht
    by_cases h5 : (candHead s0 g.nextDir).1 = g.food.x ∧ (candHead s0 g.nextDir).2 = g.food.y
    · rw [tick_eat pf g s0 rest h1 h2 h3 h4 h5]
      exact h1
    · rw [tick_move pf g s0 rest h1 h2 h3 h4 h5]
      exact h1

/-- Witness for C4: a concrete body hit dies with the score unchanged,
and a concrete tail-only hit keeps playing. -/
theorem c4_witness :
    ((tick ⟨0, 0, 0⟩ gameSelfHit).phase = Phase.dead ∧
      (tick ⟨0, 0, 0⟩ gameSelfHit).score = gameSelfHit.score) :=
  (c4_self_collision ⟨0, 0, 0⟩ gameSelfHit ⟨10, 10, 10, 10⟩
      [⟨10, 11, 10, 11⟩, ⟨11, 11, 11, 11⟩, ⟨11, 10, 11, 10⟩, ⟨12, 10, 12, 10⟩]
      (by decide) (by decide)).1 (by decide)

/-- Claim C9: a tick that consumes the item appends a tail segment that
duplicates the previous tail's current and previous cells exactly, so
the observable state left behind has two segments on one grid cell. -/
theorem c9_growth_duplicate (pf : Food) (g : GameState) (s0 : Segment) (rest : List Segment)
    (h1 : g.phase = Phase.playing) (h2 : g.snake = s0 :: rest)
    (h3 : ¬ wallHit (candHead s0 g.nextDir))
    (h4 : candHead s0 g.nextDir ∉ posList g.snake.dropLast)
    (h5 : candHead s0 g.nextDir = (g.food.x, g.food.y)) :
    (∃ qs t, (tick pf g).snake = qs ++ [t, t]) ∧
      ¬ (posList (tick pf g).snake).Nodup := by
  have h4b : hitsSelf ((s0 :: rest).map savePrev) (candHead s0 g.nextDir) = false := by
    rw [hitsSelf_map_savePrev]
    refine Bool.eq_false_iff.mpr fun ht => h4 ?_
    rw [h2]
    exact (hitsSelf_iff _ _).mp ht
  have h5b : (candHead s0 g.nextDir).1 = g.food.x ∧ (candHead s0 g.nextDir).2 = g.food.y :=
    ⟨congrArg Prod.fst h5, congrArg Prod.snd h5⟩
  rw [tick_eat pf g s0 rest h1 h2 h3 h4b h5b]
  obtain ⟨qs, t, hqt⟩ :=
    cascade_decomp ((s0 :: rest).map savePrev) (candHead s0 g.nextDir) (by simp)
  rw [hqt, grow_snoc]
  refine ⟨⟨qs, t, rfl⟩, fun hn => ?_⟩
  have hsub : [(t.x, t.y), (t.x, t.y)].Sublist (posList (qs ++ [t, t])) := by
    simp only [posList, List.map_append, List.map_cons, List.map_nil]
    exact List.sublist_append_right _ _
  have := hsub.nodup hn
  simp at this

/-- Witness for C9: the concrete eating tick leaves a duplicated tail. -/
theorem c9_witness :
    (∃ qs t, (tick ⟨0, 0, 0⟩ gameStart).snake = qs ++ [t, t]) ∧
      ¬ (posList (tick ⟨0, 0, 0⟩ gameStart).snake).Nodup :=
  c9_growth_duplicate ⟨0, 0, 0⟩ gameStart ⟨10, 10, 10, 10⟩
    [⟨9, 10, 9, 10⟩, ⟨8, 10, 8, 10⟩]
    (by decide) (by decide) (by decide) (by decide) (by decide)

/-- Claim C5: a tick that consumes the item raises the round score by
exactly 1, lengthens the creature by exactly one segment, appends a tail
duplicating the previous tail's (current, previous) pair, and relocates
the item to a cell outside the creature's occupied set at the moment of
placement. -/
theorem c5_consume (pf : Food) (g : GameState) (s0 : Segment) (rest : List Segment)
    (h1 : g.phase = Phase.playing) (h2 : g.snake = s0 :: rest)
    (h3 : ¬ wallHit (candHead s0 g.nextDir))
    (h4 : candHead s0 g.nextDir ∉ posList g.snake.dropLast)
    (h5 : candHead s0 g.nextDir = (g.food.x, g.food.y))
    (h6 : PlacedFrom (tick pf g).snake pf) :
    (tick pf g).score = g.score + 1 ∧
    (tick pf g).snake.length = g.snake.length + 1 ∧
    (∃ qs t, (tick pf g).snake = qs ++ [t, t]) ∧
    (tick pf g).food = pf ∧
    (pf.x, pf.y) ∉ posList (tick pf g).snake := by
  have hnope := placedFrom_not_mem h6
  have h4b : hitsSelf ((s0 :: rest).map savePrev) (candHead s0 g.nextDir) = false := by
    rw [hitsSelf_map_savePrev]
    refine Bool.eq_false_iff.mpr fun ht => h4 ?_
    rw [h2]
    exact (hitsSelf_iff _ _).mp ht
  have h5b : (candHead s0 g.nextDir).1 = g.food.x ∧ (candHead s0 g.nextDir).2 = g.food.y :=
    ⟨congrArg Prod.fst h5, congrArg Prod.snd h5⟩
  rw [tick_eat pf g s0 rest h1 h2 h3 h4b h5b] at hnope ⊢
  obtain ⟨qs, t, hqt⟩ :=
    cascade_decomp ((s0 :: rest).map savePrev) (candHead s0 g.nextDir) (by simp)
  have hlen : (qs ++ [t]).length = rest.length + 1 := by
    rw [← hqt, cascade_length]
    simp
  refine ⟨rfl, ?_, ?_, rfl, hnope⟩
  · rw [hqt, grow_snoc, h2]
    simp only [List.length_append, List.length_cons, List.length_nil] at hlen ⊢
    omega
  · rw [hqt, grow_snoc]
    exact ⟨qs, t, rfl⟩

/-- Witness for C5: the concrete eating tick scores, grows and relocates
the item off the creature. -/
theorem c5_witness :
    (tick ⟨0, 0, 0⟩ gameStart).score = gameStart.score + 1 ∧
    (tick ⟨0, 0, 0⟩ gameStart).snake.length = gameStart.snake.length + 1 ∧
    (∃ qs t, (tick ⟨0, 0, 0⟩ gameStart).snake = qs ++ [t, t]) ∧
    (tick ⟨0, 0, 0⟩ gameStart).food = ⟨0, 0, 0⟩ ∧
    ((0 : Int), (0 : Int)) ∉ posList (tick ⟨0, 0, 0⟩ gameStart).snake :=
  c5_consume ⟨0, 0, 0⟩ gameStart ⟨10, 10, 10, 10⟩ [⟨9, 10, 9, 10⟩, ⟨8, 10, 8, 10⟩]
    (by decide) (by decide) (by decide) (by decide) (by decide)
    ⟨1, fun _ => (0, 0), 0, streamOk_const (0, 0) (by decide), by decide, by decide⟩

/-- Claim C7 (amended): in phase playing, a direction request that is
the exact reverse of the committed direction leaves the whole state
unchanged (nothing is queued), and when no other change is already
queued (queued equals committed) the active direction after the next
tick is still the previously committed one. -/
theorem c7_reversal_rejected (k : String) (nd : Dir) (now : Nat) (f pf : Food)
    (g : GameState) (h1 : g.phase = Phase.playing)
    (hk : keyToDir k = some nd) (hrev : nd = dirNeg g.dir) :
    keydown k now f g = g ∧
      (g.nextDir = g.dir → (tick pf (keydown k now f g)).dir = g.dir) := by
  obtain ⟨e1, e2, p1, p2, p3⟩ := keyToDir_not_special hk
  have hx : nd.x = -g.dir.x := congrArg Dir.x hrev
  have hy : nd.y = -g.dir.y := congrArg Dir.y hrev
  have hmain : keydown k now f g = g := by
    unfold keydown
    rw [if_neg (by rintro ⟨-, hne, -⟩; exact hne h1),
      if_neg (by rintro ⟨hks, -⟩; rcases hks with rfl | rfl | rfl <;> simp_all),
      if_neg (by rintro ⟨-, hp⟩; rw [h1] at hp; cases hp),
      if_neg (by rintro ⟨rfl, -⟩; exact e2 rfl)]
    by_cases hl : g.dirLocked = true
    · rw [if_pos (Or.inr hl)]
    · rw [if_neg (fun hor => hor.elim (fun hne => hne h1) hl), hk]
      dsimp only
      rcases keyToDir_unit hk with rfl | rfl | rfl | rfl
      · rw [if_pos ⟨by decide, hx⟩]
      · rw [if_pos ⟨by decide, hx⟩]
      · rw [if_neg (by rintro ⟨hne, -⟩; exact hne rfl), if_pos ⟨by decide, hy⟩]
      · rw [if_neg (by rintro ⟨hne, -⟩; exact hne rfl), if_pos ⟨by decide, hy⟩]
  refine ⟨hmain, fun hnd => ?_⟩
  rw [hmain]
  rcases (tick_dirs pf g).2 with hd | hd
  · rw [hd]; exact hnd
  · rw [hd]

/-- Counterexample for C7 as stated: with an up-turn already queued and
the lock engaged, the exact-reverse request (left while committed right)
is rejected and the queue is untouched, yet the active direction after
the next tick is the queued up, not the previously committed right. -/
theorem c7_counterexample :
    gameQueuedUp.phase = Phase.playing ∧
    keyToDir leftKey = some (dirNeg gameQueuedUp.dir) ∧
    keydown leftKey 1 ⟨1, 1, 0⟩ gameQueuedUp = gameQueuedUp ∧
    (tick ⟨2, 2, 0⟩ (keydown leftKey 1 ⟨1, 1, 0⟩ gameQueuedUp)).dir ≠ gameQueuedUp.dir := by
  refine ⟨by decide, by decide, by decide, by decide⟩

/-- Witness for C7: at the fresh round (nothing queued), the reverse
request changes nothing and the creature still moves right after the
next tick. -/
theorem c7_witness :
    keydown leftKey 1 ⟨1, 1, 0⟩ gameStart = gameStart ∧
      (gameStart.nextDir = gameStart.dir →
        (tick ⟨0, 0, 0⟩ (keydown leftKey 1 ⟨1, 1, 0⟩ gameStart)).dir = gameStart.dir) :=
  c7_reversal_rejected leftKey ⟨-1, 0⟩ 1 ⟨1, 1, 0⟩ ⟨0, 0, 0⟩ gameStart
    (by decide) (by decide) (by decide)

/-- Claim C1 (amended): in every reachable state the segment cells are
pairwise distinct, except that immediately after a growth tick the two
trailing segments share one cell (resolved by the next cascade): the
position list is duplicate-free or of the form qs ++ [p, p] with
qs ++ [p] duplicate-free. -/
theorem c1_almost_distinct (b0 : Nat) (g : GameState) (m st : Nat)
    (h : Reach b0 g m st) : AlmostNodup (posList g.snake) := by
  induction h with
  | init => exact Or.inl (by simp [initState, posList])
  | step hr hs ih => exact step_almostNodup hs ih

/-- Witness for C1: the invariant holds at the initial state. -/
theorem c1_witness : AlmostNodup (posList (initState 0).snake) :=
  c1_almost_distinct 0 (initState 0) 0 0 Reach.init

/-- Counterexample for C1 as stated: the state at the end of the first
eating tick is reachable from a fresh round start, and its segment
cells are not pairwise distinct (the grown tail duplicates the old
tail's cell). -/
theorem c1_counterexample :
    (∃ m st, Reach 0 gameAte m st) ∧ ¬ (posList gameAte.snake).Nodup := by
  constructor
  · have s1 : Step (initState 0) gameStart :=
      Step.key (initState 0) enterKey 0 ⟨11, 10, 0⟩
        ⟨1, fun _ => (11, 10), 0, streamOk_const (11, 10) (by decide), by decide, by decide⟩
    have s2 : Step gameStart gameAte :=
      Step.tick gameStart ⟨0, 0, 0⟩
        (fun _ => ⟨1, fun _ => (0, 0), 0, streamOk_const (0, 0) (by decide), by decide, by decide⟩)
    exact ⟨_, _, Reach.step (Reach.step Reach.init s1) s2⟩
  · decide

/-- Claim C2 (amended): the rejection-sampling loop of placeFood returns,
under some fuel bound, a food on the first free candidate of the random
stream whenever the stream contains a free candidate, and the returned
cell is never occupied by the creature; the fully-occupied grid is not
handled and no fuel bound ever suffices there. -/
theorem c2_place_terminates (rs : Nat → Int × Int) (m : Nat)
    (snake : List Segment) (n : Nat)
    (hfree : occupied snake (rs n) = false) :
    ∃ fuel f, placeFood fuel rs m snake = some f ∧
      occupied snake (f.x, f.y) = false ∧ f.mush = m := by
  obtain ⟨c, hloop, hnotocc⟩ := placeFoodLoop_finds n 0 (by simpa using hfree)
  refine ⟨n + 1, ⟨c.1, c.2, m⟩, ?_, by simpa using hnotocc, rfl⟩
  unfold placeFood
  rw [hloop]
  rfl

/-- Witness for C2: against the fresh 3-segment creature, the constant
stream at (0, 0) immediately yields the food. -/
theorem c2_witness :
    ∃ fuel f, placeFood fuel (fun _ => (0, 0)) 3 buildSnake = some f ∧
      occupied buildSnake (f.x, f.y) = false ∧ f.mush = 3 :=
  c2_place_terminates (fun _ => (0, 0)) 3 buildSnake 0 (by decide)

/-- Counterexample for C2 as stated: with the grid fully occupied, no
fuel bound makes placeFood return — the unbounded do/while loop of the
source never exits (there is no bounded-retry or free-cell-enumeration
handling of the exhausted case). -/
theorem c2_counterexample :
    ¬ ∃ fuel f, placeFood fuel (fun _ => (0, 0)) 0 fullSnake = some f := by
  have hocc : occupied fullSnake (0, 0) = true := by decide
  have hnone : ∀ fuel k, placeFoodLoop fuel (fun _ => (0, 0)) fullSnake k = none := by
    intro fuel
    induction fuel with
    | zero => intro k; rfl
    | succ nn ih =>
      intro k
      unfold placeFoodLoop
      rw [if_pos hocc]
      exact ih (k + 1)
  rintro ⟨fuel, f, h⟩
  unfold placeFood at h
  rw [hnone] at h
  cases h

/-- Claim C6: along any session, the best score never decreases, always
equals the maximum of the value loaded from the store at startup and the
highest round score attained so far, and the persisted store value
always holds it (it is rewritten exactly when the round score exceeds
the previous best). -/
theorem c6_best_monotone_max (b0 : Nat) (g : GameState) (m st : Nat)
    (h : Reach b0 g m st) :
    g.best = max b0 m ∧ st = g.best ∧ ∀ g2, Step g g2 → g.best ≤ g2.best := by
  obtain ⟨h1, h2, _⟩ := reach_best_inv h
  exact ⟨h1, h2, fun g2 hs => step_best_le hs⟩

/-- Witness for C6: at startup with a loaded best of 5, the best equals
max 5 0 and the store still holds it. -/
theorem c6_witness :
    (initState 5).best = max 5 0 ∧ (5 : Nat) = (initState 5).best :=
  ⟨(c6_best_monotone_max 5 (initState 5) 0 5 Reach.init).1,
   (c6_best_monotone_max 5 (initState 5) 0 5 Reach.init).2.1⟩

/-- Claim C10: in every reachable state the queued direction is never
the exact reverse of the committed direction, and while the per-tick
lock is set any further direction key leaves the state unchanged. -/
theorem c10_no_queued_reversal (b0 : Nat) (g : GameState) (m st : Nat)
    (h : Reach b0 g m st) :
    g.nextDir ≠ dirNeg g.dir ∧
    (g.dirLocked = true → ∀ (k : String) (now : Nat) (f : Food) (nd : Dir),
      keyToDir k = some nd → keydown k now f g = g) :=
  ⟨(reach_dirInv h).2.2, fun hl k now f nd hk => keydown_locked now f g hl hk⟩

/-- Witness for C10: at the initial state the queued direction is not
the reverse of the committed one. -/
theorem c10_witness : (initState 0).nextDir ≠ dirNeg (initState 0).dir :=
  (c10_no_queued_reversal 0 (initState 0) 0 0 Reach.init).1

/-- Claim C8 (amended): the per-frame particle update removes a particle
exactly when, after its advance, its life is ≤ 0 or its y coordinate has
passed above the top margin (y < -10); leaving the visible bounds to the
left, right or bottom does not remove it. -/
theorem c8_particle_removal (frame : Nat) (sp : Particle) (ps : List Particle)
    (q : Particle) :
    q ∈ updateParticles frame sp ps ↔
      ((∃ p ∈ (if frame % 5 = 0 ∧ ps.length < MAX_PART then ps ++ [sp] else ps),
          q = stepParticle p) ∧ ¬ (q.life ≤ 0 ∨ q.y < -10)) := by
  unfold updateParticles particleGone
  constructor
  · intro hq
    obtain ⟨hq1, hq2⟩ := List.mem_filter.mp hq
    obtain ⟨p, hp, rfl⟩ := List.mem_map.mp hq1
    refine ⟨⟨p, hp, rfl⟩, ?_⟩
    simpa using hq2
  · rintro ⟨⟨p, hp, rfl⟩, hkeep⟩
    refine List.mem_filter.mpr ⟨List.mem_map.mpr ⟨p, hp, rfl⟩, ?_⟩
    simpa using hkeep

/-- Counterexample for C8 as stated: a particle far beyond the right
edge of the visible canvas (with any margin), with positive remaining
life, survives the update — only the top exit (y < -10) is checked. -/
theorem c8_counterexample :
    updateParticles 1 strayParticle [strayParticle] = [stepParticle strayParticle] ∧
      SIZE + 10 < (stepParticle strayParticle).x ∧
      0 < (stepParticle strayParticle).life := by
  refine ⟨?_, by norm_num [stepParticle, strayParticle, SIZE],
    by norm_num [stepParticle, strayParticle]⟩
  simp only [updateParticles, strayParticle, MAX_PART]
  norm_num [particleGone, stepParticle]
